import Mathlib

/-!
Verification of the core SDK and reconcile logic of `provider-cloudian`:
a shallow embedding, in Lean 4, of the Cloudian admin-API client
(`internal/sdk/cloudian/sdk.go`, `secret.go`), the quantity conversion
(`apis/user/v1alpha1`), and the group up-to-date comparison, together with
theorems settling the specified properties.
-/

namespace Cloudian

/-! ## Group data model (`sdk.go`) -/

/-- The exposed `Group` struct of `sdk.go`. -/
structure Group where
  Active             : Bool
  GroupID            : String
  GroupName          : String
  LDAPEnabled        : Bool
  LDAPGroup          : String
  LDAPMatchAttribute : String
  LDAPSearch         : String
  LDAPSearchUserBase : String
  LDAPServerURL      : String
  LDAPUserDNTemplate : String
deriving Repr, DecidableEq

/-- The wire-shape `groupInternal` struct of `sdk.go`: `Active` is a string
("true"/"false") and the three S3 endpoint lists are present. -/
structure GroupInternal where
  Active             : String
  GroupID            : String
  GroupName          : String
  LDAPEnabled        : Bool
  LDAPGroup          : String
  LDAPMatchAttribute : String
  LDAPSearch         : String
  LDAPSearchUserBase : String
  LDAPServerURL      : String
  LDAPUserDNTemplate : String
  S3EndpointsHTTP    : List String
  S3EndpointsHTTPS   : List String
  S3WebSiteEndpoints : List String
deriving Repr, DecidableEq

/-- Go's `strconv.FormatBool`. -/
def formatBool (b : Bool) : String :=
  if b then "true" else "false"

/-- `toInternal` from `sdk.go`: converts the exposed group to the wire shape,
fixing all three S3 endpoint lists to `["ALL"]`. -/
def toInternal (g : Group) : GroupInternal where
  Active             := formatBool g.Active
  GroupID            := g.GroupID
  GroupName          := g.GroupName
  LDAPEnabled        := g.LDAPEnabled
  LDAPGroup          := g.LDAPGroup
  LDAPMatchAttribute := g.LDAPMatchAttribute
  LDAPSearch         := g.LDAPSearch
  LDAPSearchUserBase := g.LDAPSearchUserBase
  LDAPServerURL      := g.LDAPServerURL
  LDAPUserDNTemplate := g.LDAPUserDNTemplate
  S3EndpointsHTTP    := ["ALL"]
  S3EndpointsHTTPS   := ["ALL"]
  S3WebSiteEndpoints := ["ALL"]

/-- `fromInternal` from `sdk.go`: converts the wire shape back, reading
`Active` as the comparison `g.Active == "true"` and dropping the endpoint
lists. -/
def fromInternal (g : GroupInternal) : Group where
  Active             := g.Active == "true"
  GroupID            := g.GroupID
  GroupName          := g.GroupName
  LDAPEnabled        := g.LDAPEnabled
  LDAPGroup          := g.LDAPGroup
  LDAPMatchAttribute := g.LDAPMatchAttribute
  LDAPSearch         := g.LDAPSearch
  LDAPSearchUserBase := g.LDAPSearchUserBase
  LDAPServerURL      := g.LDAPServerURL
  LDAPUserDNTemplate := g.LDAPUserDNTemplate

/-! ## Secret (`secret.go`) -/

/-- `type Secret string` from `secret.go`. -/
structure Secret where
  val : String
deriving Repr, DecidableEq

/-- `Secret.String()` from `secret.go`: always the redaction marker. -/
def Secret.display (_ : Secret) : String := "********"

/-- `Secret.Reveal()` from `secret.go`: the underlying string. -/
def Secret.Reveal (s : Secret) : String := s.val

/-- JSON unmarshalling of a plain JSON string into a `Secret`.
`Secret` is a string-kinded named type with no custom `UnmarshalJSON`, so
Go's `encoding/json` stores the decoded string value itself. -/
def Secret.unmarshalJSONString (raw : String) : Secret := ⟨raw⟩

/-! ## Theorems for C5 and C7 -/

/-- C5: for every `Secret` value, including the empty string, `String()`
returns exactly "********"; `Reveal()` returns the original underlying
string unchanged; and JSON-unmarshalling a plain JSON string stores the raw
value unredacted, so `Reveal` on the result returns that string. -/
theorem secret_redaction_reveal_unmarshal :
    ∀ s : Secret, s.display = "********" ∧
      (Secret.mk "").display = "********" ∧
      s.Reveal = s.val ∧
      ∀ raw : String, (Secret.unmarshalJSONString raw).Reveal = raw := by
  intro s
  exact ⟨rfl, rfl, rfl, fun _ => rfl⟩

/-- C7: `fromInternal (toInternal g) = g` for every group `g`, and
`toInternal` sets all three S3 endpoint list fields to the constant
`["ALL"]` regardless of the input. -/
theorem group_roundtrip_and_endpoints :
    ∀ g : Group, fromInternal (toInternal g) = g ∧
      (toInternal g).S3EndpointsHTTP = ["ALL"] ∧
      (toInternal g).S3EndpointsHTTPS = ["ALL"] ∧
      (toInternal g).S3WebSiteEndpoints = ["ALL"] := by
  intro g
  refine ⟨?_, rfl, rfl, rfl⟩
  cases g with
  | mk a gid gname lenab lgrp lmatch lsearch lbase lurl ltmpl =>
    cases a <;> rfl

/-! ## Go error model

`sdk.go` builds errors with `errors.New`, `fmt.Errorf` without `%w`
(a plain error wrapping nothing) and `fmt.Errorf` with `%w` (an error
wrapping an inner one). `ErrNotFound` is the sentinel `errors.New("not
found")`. `errors.Is` compares for equality and follows the unwrap chain. -/

inductive GoError where
  | errNotFound : GoError
  | plain (msg : String) : GoError
  | wrap (msg : String) (inner : GoError) : GoError
deriving Repr, DecidableEq

/-- `errors.Is e target`: `e == target`, or `target` is reachable through
the `%w` unwrap chain of `e`. -/
def GoError.is : GoError → GoError → Bool
  | .errNotFound, target => target == .errNotFound
  | .plain m, target => target == .plain m
  | .wrap m inner, target => target == .wrap m inner || inner.is target

/-! ## HTTP response model

All SDK calls go through `client.httpClient.Do`. We model the outcome the
client observes as either a transport error (the non-nil `err` from `Do`),
or a delivered response with a status code and a body. The body of a
delivered response is modelled post-hoc by what `io.ReadAll` +
`json.Unmarshal` would produce: a well-formed value of the expected wire
shape, a read failure, or a malformed payload. -/

inductive RespBody (α : Type) where
  | valid (a : α) : RespBody α
  | unreadable : RespBody α
  | malformed : RespBody α
deriving Repr, DecidableEq

structure HTTPResponse (α : Type) where
  status : Nat
  body : RespBody α
deriving Repr, DecidableEq

/-- The outcome of `client.httpClient.Do`: transport error or response. -/
def DoResult (α : Type) : Type := Except String (HTTPResponse α)

/-! ## User data model (`sdk.go`) -/

/-- The `User` struct of `sdk.go`. -/
structure User where
  UserID  : String
  GroupID : String
deriving Repr, DecidableEq

/-- The `SecurityInfo` struct of `sdk.go`. -/
structure SecurityInfo where
  AccessKey : Secret
  SecretKey : Secret
deriving Repr, DecidableEq

/-! ## GetGroup and GetUserCredentials (`sdk.go`) -/

/-- `GetGroup` from `sdk.go`, as a function of the HTTP outcome: 200 parses
the body as a `groupInternal` and returns `fromInternal` of it; 204 returns
`ErrNotFound`; any other status returns the generic
"GET unexpected status" error (built with a nil `%w`, so wrapping
nothing). -/
def GetGroup (r : DoResult GroupInternal) : Except GoError Group :=
  match r with
  | .error m => .error (.wrap "GET error" (.plain m))
  | .ok resp =>
    if resp.status = 200 then
      match resp.body with
      | .valid g => .ok (fromInternal g)
      | .unreadable => .error (.wrap "GET reading response body failed" (.plain "read"))
      | .malformed => .error (.wrap "GET unmarshal response body failed" (.plain "json"))
    else if resp.status = 204 then .error .errNotFound
    else .error (.plain "GET unexpected status. Failure")

/-- `GetUserCredentials` from `sdk.go`: 200 parses `[]SecurityInfo`;
204 ("no security credentials found") returns `ErrNotFound`; any other
status returns the plain "unexpected status code" error. -/
def GetUserCredentials (r : DoResult (List SecurityInfo)) : Except GoError (List SecurityInfo) :=
  match r with
  | .error m => .error (.wrap "error performing credentials request" (.plain m))
  | .ok resp =>
    if resp.status = 200 then
      match resp.body with
      | .valid si => .ok si
      | .unreadable => .error (.wrap "error reading credentials response" (.plain "read"))
      | .malformed => .error (.wrap "error parsing credentials response" (.plain "json"))
    else if resp.status = 204 then .error .errNotFound
    else .error (.plain "error: list credentials unexpected status code")

/-! ## Create/Update/Delete operations (`sdk.go`)

`CreateGroup`, `UpdateGroup`, `DeleteGroup` and `CreateUser` wrap transport
errors from `Do` but never inspect `resp.StatusCode` on a delivered
response: they end with `return resp.Body.Close()` (respectively
`return nil` after a deferred close), which is a nil error. `DeleteUser`
does inspect the status. -/

/-- `CreateGroup` from `sdk.go` (PUT /group). -/
def CreateGroup (_ : Group) (r : DoResult Unit) : Except GoError Unit :=
  match r with
  | .error m => .error (.wrap "POST to cloudian /group" (.plain m))
  | .ok _ => .ok ()

/-- `UpdateGroup` from `sdk.go` (POST /group). -/
def UpdateGroup (_ : Group) (r : DoResult Unit) : Except GoError Unit :=
  match r with
  | .error m => .error (.wrap "PUT to cloudian /group" (.plain m))
  | .ok _ => .ok ()

/-- `DeleteGroup` from `sdk.go` (DELETE /group). -/
def DeleteGroup (_ : String) (r : DoResult Unit) : Except GoError Unit :=
  match r with
  | .error m => .error (.wrap "DELETE to cloudian /group got" (.plain m))
  | .ok _ => .ok ()

/-- `CreateUser` from `sdk.go` (PUT /user). -/
def CreateUser (_ : User) (r : DoResult Unit) : Except GoError Unit :=
  match r with
  | .error m => .error (.wrap "PUT to cloudian /user" (.plain m))
  | .ok _ => .ok ()

/-- `DeleteUser` from `sdk.go` (DELETE /user): 200 succeeds, any other
status yields the plain "DELETE unexpected status" error. -/
def DeleteUser (_ : User) (r : DoResult Unit) : Except GoError Unit :=
  match r with
  | .error m => .error (.wrap "DELETE to cloudian /user got" (.plain m))
  | .ok resp =>
    if resp.status = 200 then .ok ()
    else .error (.plain "DELETE unexpected status. Failure")

/-- `NewGroup` from `sdk.go`: an empty group with the given ID (all other
fields hold Go zero values). -/
def NewGroup (groupID : String) : Group where
  Active             := false
  GroupID            := groupID
  GroupName          := ""
  LDAPEnabled        := false
  LDAPGroup          := ""
  LDAPMatchAttribute := ""
  LDAPSearch         := ""
  LDAPSearchUserBase := ""
  LDAPServerURL      := ""
  LDAPUserDNTemplate := ""

/-! ## Theorems for C3 and C4 -/

/-- C3: an error returned by `GetGroup` for a delivered response matches
`ErrNotFound` (via `errors.Is`) if and only if the response status is 204;
a 200 response with a valid wire-shape body yields `fromInternal` of the
body with a nil error; and `GetUserCredentials` maps 204 to `ErrNotFound`
in the same if-and-only-if way. -/
theorem getGroup_notFound_iff_204 (resp : HTTPResponse GroupInternal) :
    ((∃ e, GetGroup (.ok resp) = .error e ∧ e.is .errNotFound) ↔ resp.status = 204) ∧
    (∀ g, resp.status = 200 → resp.body = .valid g →
      GetGroup (.ok resp) = .ok (fromInternal g)) ∧
    (∀ r : HTTPResponse (List SecurityInfo),
      (∃ e, GetUserCredentials (.ok r) = .error e ∧ e.is .errNotFound) ↔ r.status = 204) := by
  obtain ⟨s, b⟩ := resp
  refine ⟨⟨?_, ?_⟩, ?_, ?_⟩
  · rintro ⟨e, he, hise⟩
    by_cases h200 : s = 200
    · subst h200
      cases b <;> simp [GetGroup] at he <;>
        (subst he; exact absurd hise (by decide))
    · by_cases h204 : s = 204
      · exact h204
      · simp [GetGroup, h200, h204] at he
        subst he; exact absurd hise (by decide)
  · intro h204
    subst h204
    exact ⟨.errNotFound, by simp [GetGroup], by decide⟩
  · intro g h200 hb
    subst h200; subst hb
    simp [GetGroup]
  · rintro ⟨s', b'⟩
    constructor
    · rintro ⟨e, he, hise⟩
      by_cases h200 : s' = 200
      · subst h200
        cases b' <;> simp [GetUserCredentials] at he <;>
          (subst he; exact absurd hise (by decide))
      · by_cases h204 : s' = 204
        · exact h204
        · simp [GetUserCredentials, h200, h204] at he
          subst he; exact absurd hise (by decide)
    · intro h204
      subst h204
      exact ⟨.errNotFound, by simp [GetUserCredentials], by decide⟩

/-- C3 witness: a 200 response with a valid body parses, and a 204
response yields the `ErrNotFound` sentinel. -/
theorem getGroup_notFound_iff_204_witness :
    GetGroup (.ok ⟨200, .valid (toInternal (NewGroup "QA"))⟩) =
      .ok (fromInternal (toInternal (NewGroup "QA"))) ∧
    (∃ e, GetGroup (.ok ⟨204, .malformed⟩) = .error e ∧ e.is .errNotFound) := by
  refine ⟨?_, ?_⟩
  · exact (getGroup_notFound_iff_204 ⟨200, .valid (toInternal (NewGroup "QA"))⟩).2.1
      (toInternal (NewGroup "QA")) rfl rfl
  · exact (getGroup_notFound_iff_204 ⟨204, .malformed⟩).1.mpr rfl

/-- C4 counterexample: on an HTTP 500 response, `CreateGroup`,
`UpdateGroup`, `DeleteGroup` and `CreateUser` all return a nil error —
they never inspect the response status — refuting the claim that every
non-2xx status yields a non-nil error from these calls. -/
theorem create_update_delete_no_error_on_500 :
    CreateGroup (NewGroup "QA") (.ok ⟨500, .valid ()⟩) = .ok () ∧
    UpdateGroup (NewGroup "QA") (.ok ⟨500, .valid ()⟩) = .ok () ∧
    DeleteGroup "QA" (.ok ⟨500, .valid ()⟩) = .ok () ∧
    CreateUser ⟨"u1", "QA"⟩ (.ok ⟨500, .valid ()⟩) = .ok () :=
  ⟨rfl, rfl, rfl, rfl⟩

/-- C4 amended: `CreateGroup`, `UpdateGroup`, `DeleteGroup` and
`CreateUser` wrap transport errors with call-site context and never panic
(they are total), but they ignore the status of a delivered response:
every delivered response, 2xx or not, yields a nil error. -/
theorem create_update_delete_wrap_transport_only :
    ∀ (g : Group) (u : User) (gid : String) (resp : HTTPResponse Unit) (m : String),
      CreateGroup g (.ok resp) = .ok () ∧
      UpdateGroup g (.ok resp) = .ok () ∧
      DeleteGroup gid (.ok resp) = .ok () ∧
      CreateUser u (.ok resp) = .ok () ∧
      CreateGroup g (.error m) = .error (.wrap "POST to cloudian /group" (.plain m)) ∧
      UpdateGroup g (.error m) = .error (.wrap "PUT to cloudian /group" (.plain m)) ∧
      DeleteGroup gid (.error m) = .error (.wrap "DELETE to cloudian /group got" (.plain m)) ∧
      CreateUser u (.error m) = .error (.wrap "PUT to cloudian /user" (.plain m)) :=
  fun _ _ _ _ _ => ⟨rfl, rfl, rfl, rfl, rfl, rfl, rfl, rfl⟩

/-! ## ListUsers pagination (`sdk.go`)

`ListUsers` requests `GET /user/list` with `limit=100` and an optional
`offset` user id, appends the returned page, and — when the page exceeds
the limit — drops the last entry (the sentinel) from the accumulation and
recurses with the `UserID` of `users[limit]`. We model the remote as a
pure function from the offset parameter to the decoded page, and bound Go's
(otherwise unbounded) recursion with a fuel argument; every theorem below
supplies enough fuel that it never runs out. -/

/-- The hard-coded page limit of `ListUsers`. -/
def pageLimit : Nat := 100

/-- `ListUsers` from `sdk.go`, as a function of the remote's page
behaviour. Returns the accumulated users and the trace of `offset`
parameters sent, one per request, in order. -/
def listUsersGo (server : Option String → List User) :
    Nat → Option String → Except GoError (List User × List (Option String))
  | 0, _ => .error (.plain "GET list users failed")
  | fuel + 1, offset =>
    let users := server offset
    if h : pageLimit < users.length then
      -- retVal = retVal[0 : len(retVal)-1]: remove the last element
      let kept := users.take (users.length - 1)
      -- recurse with offset &users[limit].UserID
      match listUsersGo server fuel (some (users.get ⟨pageLimit, h⟩).UserID) with
      | .error e => .error (.wrap "GET list users failed" e)
      | .ok (more, tr) => .ok (kept ++ more, offset :: tr)
    else .ok (users, [offset])

/-- The user list returned by `ListUsers` (the Go function returns only
the users; the trace is our instrumentation). -/
def ListUsers (server : Option String → List User) (fuel : Nat)
    (offset : Option String) : Except GoError (List User) :=
  (listUsersGo server fuel offset).map Prod.fst

/-- Start position of a page on the remote: the whole list for a nil
offset, and the suffix starting at the user whose `UserID` equals the
offset (inclusive) otherwise. -/
def serverStart (allUsers : List User) : Option String → List User
  | none => allUsers
  | some uid => allUsers.dropWhile (fun u => u.UserID != uid)

/-- The paginated `/user/list` remote of C1: up to `pageLimit` users from
the start position, plus one extra sentinel entry — the first entry of the
next page — whenever more pages remain. -/
def serverPage (allUsers : List User) (offset : Option String) : List User :=
  let rest := serverStart allUsers offset
  if pageLimit < rest.length then rest.take (pageLimit + 1) else rest

/-- Property of an offset trace: each offset after the first is the
`UserID` of the sentinel entry (index `pageLimit`) of the page served for
the previous offset — the entry the client stripped — and the page served
for the new offset starts with exactly that sentinel entry. -/
def offsetChain (allUsers : List User) (tr : List (Option String)) : Prop :=
  ∀ i o1 o2, tr.get? i = some o1 → tr.get? (i + 1) = some o2 →
    pageLimit < (serverPage allUsers o1).length ∧
    o2 = ((serverPage allUsers o1).get? pageLimit).map User.UserID ∧
    (serverPage allUsers o2).head? = (serverPage allUsers o1).get? pageLimit

/-- With pairwise-distinct user ids, dropping while the id differs from
the id of the element at index `k` drops exactly the first `k` elements. -/
lemma dropWhile_userID_eq_drop (l : List User) (hnd : (l.map User.UserID).Nodup) :
    ∀ (k : Nat) (u : User), l.get? k = some u →
      l.dropWhile (fun x => x.UserID != u.UserID) = l.drop k := by
  induction l with
  | nil => intro k u hu; simp at hu
  | cons x xs ih =>
    intro k u hu
    cases k with
    | zero =>
      rw [List.get?_cons_zero] at hu
      cases hu
      simp [List.dropWhile]
    | succ k' =>
      rw [List.get?_cons_succ] at hu
      rw [List.map_cons, List.nodup_cons] at hnd
      have hmem : u.UserID ∈ xs.map User.UserID :=
        List.mem_map_of_mem _ (List.get?_mem hu)
      have hne : x.UserID ≠ u.UserID := fun hEq => hnd.1 (hEq ▸ hmem)
      have hpred : (x.UserID != u.UserID) = true := bne_iff_ne.mpr hne
      rw [List.dropWhile_cons, if_pos hpred, List.drop_succ_cons]
      exact ih hnd.2 k' u hu

/-- Unfolding of `listUsersGo` on a page that exceeds the limit. -/
lemma listUsersGo_step_long (server : Option String → List User) (fuel : Nat)
    (off : Option String) (h : pageLimit < (server off).length) :
    listUsersGo server (fuel + 1) off =
      match listUsersGo server fuel (some ((server off).get ⟨pageLimit, h⟩).UserID) with
      | .error e => .error (.wrap "GET list users failed" e)
      | .ok (more, tr) =>
          .ok ((server off).take ((server off).length - 1) ++ more, off :: tr) := by
  simp only [listUsersGo]
  rw [dif_pos h]

/-- A served page starts with the same entry as the start position. -/
lemma serverPage_head_eq (allUsers : List User) (off : Option String) :
    (serverPage allUsers off).head? = (serverStart allUsers off).head? := by
  simp only [serverPage]
  by_cases h : pageLimit < (serverStart allUsers off).length
  · rw [if_pos h]
    cases serverStart allUsers off with
    | nil => simp
    | cons a t => rw [List.take_succ_cons]; rfl
  · rw [if_neg h]

/-- The head of a dropped list is the element at the drop index. -/
lemma head_drop_eq_get (l : List User) (n : Nat) :
    (l.drop n).head? = l.get? n := by
  induction l generalizing n with
  | nil => simp
  | cons a t ih =>
    cases n with
    | zero => rfl
    | succ n' => rw [List.drop_succ_cons, List.get?_cons_succ]; exact ih n'

/-- Running the client against the modelled remote from start position `k`
(with an offset resolving there) returns exactly the remaining users, and
the offsets requested on the way form a sentinel chain ending in a short
page. -/
lemma listUsersGo_model (allUsers : List User) (hnd : (allUsers.map User.UserID).Nodup) :
    ∀ (fuel k : Nat) (off : Option String),
      allUsers.length - k ≤ pageLimit * fuel + pageLimit →
      serverStart allUsers off = allUsers.drop k →
      ∃ tr, listUsersGo (serverPage allUsers) (fuel + 1) off = .ok (allUsers.drop k, tr) ∧
        tr.head? = some off ∧ tr ≠ [] ∧ offsetChain allUsers tr ∧
        ∀ olast, tr.getLast? = some olast →
          (serverPage allUsers olast).length ≤ pageLimit := by
  have short : ∀ (fuel k : Nat) (off : Option String),
      allUsers.length - k ≤ pageLimit →
      serverStart allUsers off = allUsers.drop k →
      listUsersGo (serverPage allUsers) (fuel + 1) off = .ok (allUsers.drop k, [off]) ∧
        serverPage allUsers off = allUsers.drop k := by
    intro fuel k off hb hs
    have hnotlt : ¬ pageLimit < (allUsers.drop k).length := by
      rw [List.length_drop]; omega
    have hpage : serverPage allUsers off = allUsers.drop k := by
      simp only [serverPage]; rw [hs]; exact if_neg hnotlt
    refine ⟨?_, hpage⟩
    simp only [listUsersGo, hpage]
    rw [dif_neg hnotlt]
  intro fuel
  induction fuel with
  | zero =>
    intro k off hb hs
    have hb' : allUsers.length - k ≤ pageLimit := by simpa using hb
    obtain ⟨hrun, hpage⟩ := short 0 k off hb' hs
    refine ⟨[off], hrun, rfl, by simp, ?_, ?_⟩
    · intro i o1 o2 h1 h2
      rcases i with _ | i <;> simp at h2
    · intro olast hlast
      simp at hlast
      rw [hlast] at hpage
      rw [hpage, List.length_drop]
      omega
  | succ f ih =>
    intro k off hb hs
    by_cases hshort : allUsers.length - k ≤ pageLimit
    · obtain ⟨hrun, hpage⟩ := short (f + 1) k off hshort hs
      refine ⟨[off], hrun, rfl, by simp, ?_, ?_⟩
      · intro i o1 o2 h1 h2
        rcases i with _ | i <;> simp at h2
      · intro olast hlast
        simp at hlast
        rw [hlast] at hpage
        rw [hpage, List.length_drop]
        omega
    · -- long page: the remote serves pageLimit + 1 entries
      have hlenk : k + pageLimit < allUsers.length := by
        simp only [pageLimit] at hshort ⊢; omega
      have hrl : (allUsers.drop k).length = allUsers.length - k := List.length_drop ..
      have hlt : pageLimit < (allUsers.drop k).length := by rw [hrl]; omega
      have hpage : serverPage allUsers off = (allUsers.drop k).take (pageLimit + 1) := by
        simp only [serverPage]; rw [hs]; exact if_pos hlt
      have hplen : ((allUsers.drop k).take (pageLimit + 1)).length = pageLimit + 1 := by
        rw [List.length_take]; omega
      have hltpage : pageLimit < (serverPage allUsers off).length := by
        rw [hpage, hplen]; omega
      have hu : allUsers.get? (k + pageLimit) = some (allUsers.get ⟨k + pageLimit, hlenk⟩) :=
        List.get?_eq_get hlenk
      have hpq : (serverPage allUsers off).get? pageLimit
          = some (allUsers.get ⟨k + pageLimit, hlenk⟩) := by
        rw [hpage, List.get?_take (by omega), List.get?_drop, hu]
      have hsent : (serverPage allUsers off).get ⟨pageLimit, hltpage⟩
          = allUsers.get ⟨k + pageLimit, hlenk⟩ := by
        have h1 := List.get?_eq_get hltpage
        rw [hpq] at h1
        exact (Option.some.inj h1).symm
      have hs' : serverStart allUsers (some (allUsers.get ⟨k + pageLimit, hlenk⟩).UserID)
          = allUsers.drop (k + pageLimit) := by
        simp only [serverStart]
        exact dropWhile_userID_eq_drop allUsers hnd (k + pageLimit) _ hu
      have hb' : allUsers.length - (k + pageLimit) ≤ pageLimit * f + pageLimit := by
        simp only [pageLimit] at hb ⊢; omega
      obtain ⟨tr', htr', hhead', hne', hchain', hlast'⟩ :=
        ih (k + pageLimit) (some (allUsers.get ⟨k + pageLimit, hlenk⟩).UserID) hb' hs'
      have hstep := listUsersGo_step_long (serverPage allUsers) (f + 1) off hltpage
      rw [hsent, htr'] at hstep
      have hkept : ((allUsers.drop k).take (pageLimit + 1)).take (pageLimit + 1 - 1)
          = (allUsers.drop k).take pageLimit := by
        rw [List.take_take]
        congr 1
      have happend : (allUsers.drop k).take pageLimit ++ allUsers.drop (k + pageLimit)
          = allUsers.drop k := by
        have hdd : allUsers.drop (k + pageLimit) = ((allUsers.drop k).drop pageLimit) := by
          rw [List.drop_drop]
        rw [hdd, List.take_append_drop]
      have hres : listUsersGo (serverPage allUsers) (f + 1 + 1) off
          = .ok (allUsers.drop k, off :: tr') := by
        rw [hstep]
        show Except.ok ((serverPage allUsers off).take ((serverPage allUsers off).length - 1)
            ++ allUsers.drop (k + pageLimit), off :: tr')
          = Except.ok (allUsers.drop k, off :: tr')
        rw [hpage, hplen, hkept, happend]
      refine ⟨off :: tr', hres, rfl, by simp, ?_, ?_⟩
      · -- the offset chain
        intro i o1 o2 h1 h2
        cases i with
        | zero =>
          rw [List.get?_cons_zero] at h1
          cases h1
          rw [List.get?_cons_succ] at h2
          have h2' : tr'.head? = some o2 := by
            cases tr' with
            | nil => simp at h2
            | cons b t => simpa using h2
          have ho2 : o2 = some (allUsers.get ⟨k + pageLimit, hlenk⟩).UserID := by
            rw [hhead'] at h2'
            exact (Option.some.inj h2').symm
          refine ⟨hltpage, ?_, ?_⟩
          · rw [hpq, ho2]; rfl
          · rw [ho2, serverPage_head_eq, hs', head_drop_eq_get, hu, hpq]
        | succ i' =>
          rw [List.get?_cons_succ] at h1 h2
          exact hchain' i' o1 o2 h1 h2
      · -- the last page is short
        intro olast hlast
        have : tr'.getLast? = some olast := by
          cases tr' with
          | nil => exact absurd rfl hne'
          | cons b t => rw [List.getLast?_cons_cons] at hlast; exact hlast
        exact hlast' olast this

/-- A small family of users with pairwise-distinct `UserID`s. -/
def mkUser (i : Nat) : User := ⟨"u" ++ toString i, "QA"⟩

/-- The remote user list `[mkUser 0, ..., mkUser (n-1)]`. -/
def mkUsers (n : Nat) : List User := (List.range n).map mkUser

/-! ## Theorems for C1 and C2 -/

/-- C1: against a remote of `N` users with distinct ids served by the
paginated `/user/list` model (page limit 100, one extra sentinel entry —
the first entry of the next page — whenever more pages remain),
`ListUsers` with a nil offset returns exactly those `N` users: no
duplicates, no omissions, for every `N`. -/
theorem listUsers_returns_exactly_all (allUsers : List User)
    (hnd : (allUsers.map User.UserID).Nodup) (fuel : Nat)
    (hfuel : allUsers.length ≤ pageLimit * fuel + pageLimit) :
    ListUsers (serverPage allUsers) (fuel + 1) none = .ok allUsers := by
  obtain ⟨tr, htr, -, -, -, -⟩ :=
    listUsersGo_model allUsers hnd fuel 0 none (by simpa using hfuel) rfl
  simp only [List.drop_zero] at htr
  unfold ListUsers
  rw [htr]
  rfl

/-- C1 witness: a remote with 101 users (limit + 1, the boundary) is
returned in full. -/
theorem listUsers_returns_exactly_all_witness :
    ((mkUsers 101).map User.UserID).Nodup ∧
    (mkUsers 101).length ≤ pageLimit * 1 + pageLimit ∧
    ListUsers (serverPage (mkUsers 101)) (1 + 1) none = .ok (mkUsers 101) :=
  ⟨by decide, by decide,
    listUsers_returns_exactly_all (mkUsers 101) (by decide) 1 (by decide)⟩

/-- C2 counterexample: with 102 remote users, the first page is
`[mkUser 0, ..., mkUser 100]` (101 entries); the client keeps the first
100 — so the last kept entry is `mkUser 99` — yet the offset of the
recursive call (second trace entry) is "u100", the `UserID` of the
stripped sentinel `users[100]`, not "u99", the `UserID` of the last kept
entry. -/
theorem listUsers_offset_is_sentinel_not_last_kept :
    listUsersGo (serverPage (mkUsers 102)) 2 none
      = .ok (mkUsers 102, [none, some (mkUser 100).UserID]) ∧
    ((serverPage (mkUsers 102) none).take pageLimit).getLast? = some (mkUser 99) ∧
    (mkUser 100).UserID ≠ (mkUser 99).UserID := by
  refine ⟨by rfl, by decide, by decide⟩

/-- C2 amended: whenever a fetched page exceeds the limit, the client
strips the extra sentinel entry from the accumulation and issues the
recursive call with the offset equal to the `UserID` of the stripped
sentinel entry `users[limit]` — the first entry of the next page — not of
the last kept entry; it accumulates until a short page is returned,
yielding the full remote list. -/
theorem listUsers_sentinel_offsets (allUsers : List User)
    (hnd : (allUsers.map User.UserID).Nodup) (fuel : Nat)
    (hfuel : allUsers.length ≤ pageLimit * fuel + pageLimit) :
    ∃ tr, listUsersGo (serverPage allUsers) (fuel + 1) none = .ok (allUsers, tr) ∧
      tr.head? = some none ∧ tr ≠ [] ∧ offsetChain allUsers tr ∧
      ∀ olast, tr.getLast? = some olast →
        (serverPage allUsers olast).length ≤ pageLimit := by
  have h := listUsersGo_model allUsers hnd fuel 0 none (by simpa using hfuel) rfl
  simpa using h

/-- C2 amended witness: the 101-user boundary instance. -/
theorem listUsers_sentinel_offsets_witness :
    ((mkUsers 101).map User.UserID).Nodup ∧
    (∃ tr, listUsersGo (serverPage (mkUsers 101)) (1 + 1) none = .ok (mkUsers 101, tr) ∧
      tr.head? = some none ∧ tr ≠ [] ∧ offsetChain (mkUsers 101) tr ∧
      ∀ olast, tr.getLast? = some olast →
        (serverPage (mkUsers 101) olast).length ≤ pageLimit) :=
  ⟨by decide, listUsers_sentinel_offsets (mkUsers 101) (by decide) 1 (by decide)⟩

/-! ## DeleteGroupRecursive (`sdk.go`)

`DeleteGroupRecursive` lists the group's users, deletes them one by one —
returning the wrapped error as soon as a listing or a deletion fails — and
only then deletes the group. We model its collaborators by their outcomes
and record the ordered trace of remote calls it makes. -/

inductive Event where
  | listUsersCall (groupId : String)
  | deleteUserCall (u : User)
  | deleteGroupCall (groupId : String)
deriving Repr, DecidableEq

/-- The `for _, user := range users` loop of `DeleteGroupRecursive`:
delete users in order, stopping at the first failure. -/
def deleteUsersLoop (delUser : User → Except GoError Unit) :
    List User → List Event × Option GoError
  | [] => ([], none)
  | u :: rest =>
    match delUser u with
    | .error e => ([.deleteUserCall u], some (.wrap "error deleting user" e))
    | .ok _ =>
      let (evs, r) := deleteUsersLoop delUser rest
      (.deleteUserCall u :: evs, r)

/-- `DeleteGroupRecursive` from `sdk.go`, as a function of the outcome of
listing the group's users, the outcome of each user deletion, and the
outcome of the final group deletion. -/
def DeleteGroupRecursive (listRes : Except GoError (List User))
    (delUser : User → Except GoError Unit) (delGroup : Except GoError Unit)
    (groupId : String) : List Event × Except GoError Unit :=
  match listRes with
  | .error e => ([.listUsersCall groupId], .error (.wrap "error listing users" e))
  | .ok users =>
    match deleteUsersLoop delUser users with
    | (evs, some e) => (.listUsersCall groupId :: evs, .error e)
    | (evs, none) =>
        (.listUsersCall groupId :: evs ++ [.deleteGroupCall groupId], delGroup)

lemma deleteUsersLoop_all_ok (delUser : User → Except GoError Unit) :
    ∀ users : List User, (∀ u ∈ users, delUser u = .ok ()) →
      deleteUsersLoop delUser users = (users.map Event.deleteUserCall, none) := by
  intro users
  induction users with
  | nil => intro _; rfl
  | cons u rest ih =>
    intro hall
    have hu : delUser u = .ok () := hall u (List.mem_cons_self ..)
    have hrest := ih (fun v hv => hall v (List.mem_cons_of_mem _ hv))
    simp [deleteUsersLoop, hu, hrest]

lemma deleteUsersLoop_first_failure (delUser : User → Except GoError Unit)
    (bad : User) (e : GoError) (hbad : delUser bad = .error e) :
    ∀ (good rest : List User), (∀ u ∈ good, delUser u = .ok ()) →
      deleteUsersLoop delUser (good ++ bad :: rest)
        = (good.map Event.deleteUserCall ++ [.deleteUserCall bad],
            some (.wrap "error deleting user" e)) := by
  intro good
  induction good with
  | nil => intro rest _; simp [deleteUsersLoop, hbad]
  | cons u g ih =>
    intro rest hall
    have hu : delUser u = .ok () := hall u (List.mem_cons_self ..)
    have hg := ih rest (fun v hv => hall v (List.mem_cons_of_mem _ hv))
    simp [deleteUsersLoop, hu, hg]

/-- C8: the remote calls of `DeleteGroupRecursive`: user deletions happen
in listing order, `DeleteGroup` happens exactly once, after all of them; a
listing failure or a failed user deletion aborts — the wrapped error is
returned, no further `DeleteUser` call is made and `DeleteGroup` is never
called. -/
theorem deleteGroupRecursive_order (groupId : String)
    (delUser : User → Except GoError Unit) (delGroup : Except GoError Unit) :
    (∀ e, DeleteGroupRecursive (.error e) delUser delGroup groupId
        = ([.listUsersCall groupId], .error (.wrap "error listing users" e))) ∧
    (∀ users : List User, (∀ u ∈ users, delUser u = .ok ()) →
      DeleteGroupRecursive (.ok users) delUser delGroup groupId
        = (.listUsersCall groupId :: users.map Event.deleteUserCall
            ++ [.deleteGroupCall groupId], delGroup)) ∧
    (∀ (good : List User) (bad : User) (rest : List User) (e : GoError),
      (∀ u ∈ good, delUser u = .ok ()) → delUser bad = .error e →
      DeleteGroupRecursive (.ok (good ++ bad :: rest)) delUser delGroup groupId
        = (.listUsersCall groupId ::
            (good.map Event.deleteUserCall ++ [.deleteUserCall bad]),
            .error (.wrap "error deleting user" e))) := by
  refine ⟨fun e => rfl, ?_, ?_⟩
  · intro users hall
    simp [DeleteGroupRecursive, deleteUsersLoop_all_ok delUser users hall]
  · intro good bad rest e hgood hbad
    simp [DeleteGroupRecursive, deleteUsersLoop_first_failure delUser bad e hbad good rest hgood]

/-- C8 witness: with two users `U1, U2` that delete successfully, the call
order is `DeleteUser U1`, `DeleteUser U2`, `DeleteGroup "QA"`. -/
theorem deleteGroupRecursive_order_witness :
    DeleteGroupRecursive (.ok [mkUser 1, mkUser 2]) (fun _ => .ok ()) (.ok ()) "QA"
      = ([.listUsersCall "QA", .deleteUserCall (mkUser 1), .deleteUserCall (mkUser 2),
          .deleteGroupCall "QA"], .ok ()) := by
  have h := (deleteGroupRecursive_order "QA" (fun _ => .ok ()) (.ok ())).2.1
    [mkUser 1, mkUser 2] (fun u _ => rfl)
  simpa using h

/-! ## Quantity.ToKiB (`apis/user/v1alpha1`)

`Quantity` is a string constrained by the CRD validation pattern
`^(0|((0|[1-9][0-9]*)[KMGT]i))$`. `ToKiB` parses it with the Kubernetes
resource library and returns `ScaledValue(0) / 1024`; a nil receiver
yields a nil result with no error. -/

/-- `[1-9]`. -/
def isNonzeroDigit (c : Char) : Bool := '1' ≤ c && c ≤ '9'

/-- `[KMGT]`. -/
def suffixChar (c : Char) : Bool := c == 'K' || c == 'M' || c == 'G' || c == 'T'

/-- `[0-9]*[KMGT]i`, the tail of the pattern after its first digit. -/
def digitsThenSuffix : List Char → Bool
  | [] => false
  | [_] => false
  | [c, i] => suffixChar c && i == 'i'
  | c :: cs => c.isDigit && digitsThenSuffix cs

/-- `[KMGT]i`, the tail allowed after a leading "0". -/
def zeroSuffixTail : List Char → Bool
  | [d, i] => suffixChar d && i == 'i'
  | _ => false

/-- Decides the CRD pattern `^(0|((0|[1-9][0-9]*)[KMGT]i))$`. -/
def matchesQuantityPattern (s : String) : Bool :=
  match s.data with
  | [] => false
  | c :: cs =>
    (c == '0' && cs == []) ||
    (c == '0' && zeroSuffixTail cs) ||
    (isNonzeroDigit c && digitsThenSuffix cs)

/-- The value of a digit run, most significant first. -/
def digitsVal (ds : List Char) : Nat :=
  ds.foldl (fun a c => a * 10 + (c.toNat - '0'.toNat)) 0

/-- The byte factor of a binary suffix character. -/
def binFactor (c : Char) : Nat :=
  if c = 'K' then 1024
  else if c = 'M' then 1024 ^ 2
  else if c = 'G' then 1024 ^ 3
  else if c = 'T' then 1024 ^ 4
  else 0

/-- The factor encoded by the remainder after the digits. -/
def suffixFactor : List Char → Option Nat
  | [] => some 1
  | ['K', 'i'] => some 1024
  | ['M', 'i'] => some (1024 ^ 2)
  | ['G', 'i'] => some (1024 ^ 3)
  | ['T', 'i'] => some (1024 ^ 4)
  | _ => none

/-- Modelled from the spec: `resource.ParseQuantity` of
`k8s.io/apimachinery` (an external library, not part of this repository)
followed by `ScaledValue(0)`, restricted to the CRD-validated grammar: the
decimal prefix scaled by the base-2 binary suffix, as a byte count. -/
def parseQuantityBytes (s : String) : Option Nat :=
  let ds := s.data.takeWhile Char.isDigit
  let rest := s.data.dropWhile Char.isDigit
  if ds.isEmpty then none
  else (suffixFactor rest).map (fun f => digitsVal ds * f)

/-- `Quantity.ToKiB`: a nil receiver yields a nil result and no error; a
parse failure is returned as an error; otherwise the scaled value divided
by 1024. -/
def ToKiB (q : Option String) : Except String (Option Int) :=
  match q with
  | none => .ok none
  | some s =>
    match parseQuantityBytes s with
    | none => .error "unable to parse quantity"
    | some v => .ok (some ((v : Int) / 1024))

lemma isDigit_of_nonzeroDigit (c : Char) (h : isNonzeroDigit c = true) :
    c.isDigit = true := by
  simp only [isNonzeroDigit, Bool.and_eq_true, decide_eq_true_eq] at h
  simp only [Char.isDigit, Bool.and_eq_true, decide_eq_true_eq]
  exact ⟨le_trans (show ('0' : Char) ≤ '1' by decide) h.1, h.2⟩

lemma not_isDigit_of_suffixChar (c : Char) (h : suffixChar c = true) :
    c.isDigit = false := by
  simp only [suffixChar, Bool.or_eq_true, beq_iff_eq] at h
  rcases h with ((h | h) | h) | h <;> subst h <;> decide

lemma takeWhile_dropWhile_split (p : Char → Bool) :
    ∀ (xs : List Char) (y : Char) (zs : List Char),
      (∀ x ∈ xs, p x = true) → p y = false →
      (xs ++ y :: zs).takeWhile p = xs ∧ (xs ++ y :: zs).dropWhile p = y :: zs := by
  intro xs
  induction xs with
  | nil =>
    intro y zs _ hy
    simp [List.takeWhile_cons, List.dropWhile_cons, hy]
  | cons x xt ih =>
    intro y zs hall hy
    have hx : p x = true := hall x (List.mem_cons_self ..)
    have := ih y zs (fun a ha => hall a (List.mem_cons_of_mem _ ha)) hy
    simp [List.takeWhile_cons, List.dropWhile_cons, hx, this.1, this.2]

lemma digitsThenSuffix_decomp :
    ∀ cs : List Char, digitsThenSuffix cs = true →
      ∃ num d, cs = num ++ [d, 'i'] ∧ (∀ x ∈ num, x.isDigit = true) ∧
        suffixChar d = true := by
  intro cs
  induction cs with
  | nil => intro h; simp [digitsThenSuffix] at h
  | cons a tail ih =>
    intro h
    match tail with
    | [] => simp [digitsThenSuffix] at h
    | [b] =>
      simp only [digitsThenSuffix, Bool.and_eq_true, beq_iff_eq] at h
      exact ⟨[], a, by simp [h.2], by simp, h.1⟩
    | b :: c :: t =>
      simp only [digitsThenSuffix, Bool.and_eq_true] at h
      obtain ⟨num, d, hdec, hdig, hsfx⟩ := ih h.2
      exact ⟨a :: num, d, by simp [hdec], by
        intro x hx
        rcases List.mem_cons.mp hx with hx | hx
        · exact hx ▸ h.1
        · exact hdig x hx, hsfx⟩

lemma zeroSuffixTail_decomp (cs : List Char) (h : zeroSuffixTail cs = true) :
    ∃ d, cs = [d, 'i'] ∧ suffixChar d = true := by
  match cs with
  | [] => simp [zeroSuffixTail] at h
  | [a] => simp [zeroSuffixTail] at h
  | [a, b] =>
    simp only [zeroSuffixTail, Bool.and_eq_true, beq_iff_eq] at h
    exact ⟨a, by simp [h.2], h.1⟩
  | a :: b :: c :: t => simp [zeroSuffixTail] at h

lemma suffixFactor_of_suffixChar (d : Char) (h : suffixChar d = true) :
    suffixFactor [d, 'i'] = some (binFactor d) := by
  simp only [suffixChar, Bool.or_eq_true, beq_iff_eq] at h
  rcases h with ((h | h) | h) | h <;> subst h <;> rfl

/-- Parsing succeeds on every string of the shape digits-then-suffix. -/
lemma parseQuantityBytes_decomp (s : String) (num : List Char) (d : Char)
    (hdata : s.data = num ++ [d, 'i']) (hnum : num ≠ [])
    (hdig : ∀ x ∈ num, x.isDigit = true) (hsfx : suffixChar d = true) :
    parseQuantityBytes s = some (digitsVal num * binFactor d) := by
  have hd : d.isDigit = false := not_isDigit_of_suffixChar d hsfx
  obtain ⟨htake, hdrop⟩ := takeWhile_dropWhile_split Char.isDigit num d ['i'] hdig hd
  simp only [parseQuantityBytes, hdata, htake, hdrop]
  rw [if_neg (by simpa [List.isEmpty_iff] using hnum)]
  rw [suffixFactor_of_suffixChar d hsfx]
  rfl

/-- C6: `ToKiB` on a nil Quantity returns nil with no error; every
Quantity string matching the CRD pattern `^(0|((0|[1-9][0-9]*)[KMGT]i))$`
is either "0" (yielding 0 KiB) or a digit run followed by a binary suffix,
and `ToKiB` returns its byte value — the digit run times the suffix
factor — divided by 1024, truncated, with no error. -/
theorem toKiB_nil_and_grammar (s : String) (h : matchesQuantityPattern s = true) :
    ToKiB none = .ok none ∧
    ((s.data = ['0'] ∧ ToKiB (some s) = .ok (some 0)) ∨
      ∃ num d, s.data = num ++ [d, 'i'] ∧ num ≠ [] ∧
        (∀ x ∈ num, x.isDigit = true) ∧ suffixChar d = true ∧
        ToKiB (some s) = .ok (some (((digitsVal num * binFactor d : Nat) : Int) / 1024))) := by
  refine ⟨rfl, ?_⟩
  match hdata : s.data with
  | [] => rw [matchesQuantityPattern, hdata] at h; simp at h
  | c :: cs =>
    rw [matchesQuantityPattern, hdata] at h
    simp only [Bool.or_eq_true, Bool.and_eq_true, beq_iff_eq] at h
    rcases h with (⟨hc, hcs⟩ | ⟨hc, hz⟩) | ⟨hnz, hds⟩
    · -- "0"
      subst hc; subst hcs
      left
      refine ⟨rfl, ?_⟩
      have hp : parseQuantityBytes s = some 0 := by
        simp [parseQuantityBytes, hdata, List.takeWhile_cons, List.dropWhile_cons,
          digitsVal, suffixFactor]
      simp [ToKiB, hp]
    · -- "0" followed by a binary suffix
      subst hc
      obtain ⟨d, hcs, hsfx⟩ := zeroSuffixTail_decomp cs hz
      subst hcs
      right
      refine ⟨['0'], d, by simp, by simp, by simp, hsfx, ?_⟩
      have hp := parseQuantityBytes_decomp s ['0'] d (by simpa using hdata)
        (by simp) (by simp) hsfx
      simp [ToKiB, hp]
    · -- nonzero digit run followed by a binary suffix
      obtain ⟨num, d, hcs, hdig, hsfx⟩ := digitsThenSuffix_decomp cs hds
      subst hcs
      right
      refine ⟨c :: num, d, by simp, by simp, ?_, hsfx, ?_⟩
      · intro x hx
        rcases List.mem_cons.mp hx with hx | hx
        · exact hx ▸ isDigit_of_nonzeroDigit c hnz
        · exact hdig x hx
      · have hp := parseQuantityBytes_decomp s (c :: num) d (by simpa using hdata)
          (by simp) (by
            intro x hx
            rcases List.mem_cons.mp hx with hx | hx
            · exact hx ▸ isDigit_of_nonzeroDigit c hnz
            · exact hdig x hx) hsfx
        simp [ToKiB, hp]

/-- C6 witness: "1Gi" matches the pattern and converts to 1048576 KiB;
the nil receiver yields nil without error. -/
theorem toKiB_nil_and_grammar_witness :
    matchesQuantityPattern "1Gi" = true ∧ ToKiB none = .ok none ∧
    ToKiB (some "1Gi") = .ok (some 1048576) :=
  ⟨by decide, (toKiB_nil_and_grammar "1Gi" (by decide)).1, by rfl⟩

/-! ## User reconciler Delete (`internal/controller/user`)

`external.Delete` lists the user's credentials; a listing failure is
returned as-is; a non-empty credential list yields the policy error
"User has access keys and cannot be deleted" without calling `DeleteUser`;
only a user with zero access keys is deleted. -/

inductive UserDeleteEvent where
  | listCredsCall
  | deleteUserCall
deriving Repr, DecidableEq

/-- `external.Delete` of the user controller, as a function of the outcome
of listing the user's credentials and of deleting the user. Returns the
ordered trace of SDK calls made, and the result. -/
def externalUserDelete (listCreds : Except GoError (List SecurityInfo))
    (delUser : Except GoError Unit) : List UserDeleteEvent × Except GoError Unit :=
  match listCreds with
  | .error e => ([.listCredsCall], .error e)
  | .ok creds =>
    if 0 < creds.length then
      ([.listCredsCall], .error (.plain "User has access keys and cannot be deleted"))
    else
      match delUser with
      | .error e => ([.listCredsCall, .deleteUserCall], .error (.wrap "cannot delete User" e))
      | .ok _ => ([.listCredsCall, .deleteUserCall], .ok ())

/-- C9: when the credential listing is non-empty, `Delete` returns the
policy error and makes no `DeleteUser` call; conversely, whenever a
`DeleteUser` call appears in the trace, the listing returned zero access
keys. -/
theorem userDelete_requires_no_access_keys
    (listCreds : Except GoError (List SecurityInfo)) (delUser : Except GoError Unit) :
    (∀ creds, listCreds = .ok creds → creds ≠ [] →
      externalUserDelete listCreds delUser
        = ([.listCredsCall], .error (.plain "User has access keys and cannot be deleted"))) ∧
    (∀ evs r, externalUserDelete listCreds delUser = (evs, r) →
      UserDeleteEvent.deleteUserCall ∈ evs → listCreds = .ok []) := by
  constructor
  · intro creds hlist hne
    subst hlist
    have hlen : 0 < creds.length := List.length_pos.mpr hne
    simp [externalUserDelete, hlen]
  · intro evs r hrun hmem
    match listCreds with
    | .error e =>
      simp [externalUserDelete] at hrun
      rw [← hrun.1] at hmem
      simp at hmem
    | .ok creds =>
      match creds with
      | [] => rfl
      | c :: cr =>
        simp [externalUserDelete] at hrun
        rw [← hrun.1] at hmem
        simp at hmem

/-- C9 witness: a user owning one access key is not deleted; a user with
zero keys is. -/
theorem userDelete_requires_no_access_keys_witness :
    externalUserDelete (.ok [⟨⟨"AK"⟩, ⟨"SK"⟩⟩]) (.ok ())
      = ([.listCredsCall], .error (.plain "User has access keys and cannot be deleted")) :=
  (userDelete_requires_no_access_keys (.ok [⟨⟨"AK"⟩, ⟨"SK"⟩⟩]) (.ok ())).1
    [⟨⟨"AK"⟩, ⟨"SK"⟩⟩] rfl (by simp)

/-! ## Group reconciler isUpToDate (`internal/controller/group`) -/

/-- `GroupParameters` of `apis/user/v1alpha1`, with the field shapes used
by `internal/controller/group/group_test.go`: `GroupID` is a plain string,
the other scalar fields are optional pointers (`Active` a string pointer,
`LDAPEnabled` a bool pointer), and the S3 endpoint fields are slices. -/
structure GroupParameters where
  Active             : Option String
  GroupID            : String
  GroupName          : Option String
  LDAPEnabled        : Option Bool
  LDAPGroup          : Option String
  LDAPMatchAttribute : Option String
  LDAPSearch         : Option String
  LDAPSearchUserBase : Option String
  LDAPServerURL      : Option String
  LDAPUserDNTemplate : Option String
  S3EndpointsHTTP    : List String
  S3EndpointsHTTPS   : List String
  S3WebsiteEndpoints : List String
deriving Repr, DecidableEq

/-- A `GroupParameters` with no opinion on any field. -/
def emptyParams (groupID : String) : GroupParameters where
  Active             := none
  GroupID            := groupID
  GroupName          := none
  LDAPEnabled        := none
  LDAPGroup          := none
  LDAPMatchAttribute := none
  LDAPSearch         := none
  LDAPSearchUserBase := none
  LDAPServerURL      := none
  LDAPUserDNTemplate := none
  S3EndpointsHTTP    := []
  S3EndpointsHTTPS   := []
  S3WebsiteEndpoints := []

/-- Modelled from the spec: per-field comparison of `isUpToDate` — a nil
desired pointer field means "no opinion" and never produces a diff; a
non-nil desired field must match the observed value exactly. -/
def fieldUpToDate {α : Type} [DecidableEq α] (desired observed : Option α) : Bool :=
  match desired with
  | none => true
  | some d => decide (observed = some d)

/-- Modelled from the spec: slice comparison of `isUpToDate` — an unset
(nil) desired slice is no opinion; a set one must be equal. -/
def sliceUpToDate (desired observed : List String) : Bool :=
  match desired with
  | [] => true
  | _ => decide (desired = observed)

/-- Modelled from the spec: `isUpToDate` of `internal/controller/group`
(the function itself is not among the provided sources — only its test
is): compares every settable field of the desired spec against the
observed remote state, nil meaning no opinion, and returns the boolean
along with a human-readable diff string for logging. -/
def isUpToDate (desired observed : GroupParameters) : Bool × String :=
  let ok := decide (desired.GroupID = observed.GroupID) &&
    fieldUpToDate desired.Active observed.Active &&
    fieldUpToDate desired.GroupName observed.GroupName &&
    fieldUpToDate desired.LDAPEnabled observed.LDAPEnabled &&
    fieldUpToDate desired.LDAPGroup observed.LDAPGroup &&
    fieldUpToDate desired.LDAPMatchAttribute observed.LDAPMatchAttribute &&
    fieldUpToDate desired.LDAPSearch observed.LDAPSearch &&
    fieldUpToDate desired.LDAPSearchUserBase observed.LDAPSearchUserBase &&
    fieldUpToDate desired.LDAPServerURL observed.LDAPServerURL &&
    fieldUpToDate desired.LDAPUserDNTemplate observed.LDAPUserDNTemplate &&
    sliceUpToDate desired.S3EndpointsHTTP observed.S3EndpointsHTTP &&
    sliceUpToDate desired.S3EndpointsHTTPS observed.S3EndpointsHTTPS &&
    sliceUpToDate desired.S3WebsiteEndpoints observed.S3WebsiteEndpoints
  (ok, if ok then "" else "desired and observed group parameters differ")

/-- The observed remote group of the test scenario: `GroupID` "QA",
empty `GroupName`, `Active` "true", `LDAPEnabled` false, endpoint lists
`["ALL"]`. -/
def observedQA : GroupParameters where
  Active             := some "true"
  GroupID            := "QA"
  GroupName          := some ""
  LDAPEnabled        := some false
  LDAPGroup          := none
  LDAPMatchAttribute := none
  LDAPSearch         := none
  LDAPSearchUserBase := none
  LDAPServerURL      := none
  LDAPUserDNTemplate := none
  S3EndpointsHTTP    := ["ALL"]
  S3EndpointsHTTPS   := ["ALL"]
  S3WebsiteEndpoints := ["ALL"]

/-- C10: desired `{GroupID:"QA", GroupName:nil}` is up to date against an
observed group with `GroupName:""`, while desired `GroupName:"X"` is not;
in general a nil desired `GroupName` never produces a diff — the outcome
is unchanged under any observed `GroupName` — and a non-nil desired
`GroupName` that differs from the observed value yields false. -/
theorem group_isUpToDate_nil_no_opinion (d o : GroupParameters) (v : Option String) :
    (isUpToDate (emptyParams "QA") observedQA).1 = true ∧
    (isUpToDate { emptyParams "QA" with GroupName := some "X" } observedQA).1 = false ∧
    (d.GroupName = none →
      (isUpToDate d o).1 = (isUpToDate d { o with GroupName := v }).1) ∧
    (∀ s, d.GroupName = some s → o.GroupName ≠ some s → (isUpToDate d o).1 = false) := by
  refine ⟨by decide, by decide, ?_, ?_⟩
  · intro hnone
    simp [isUpToDate, fieldUpToDate, hnone]
  · intro s hsome hne
    simp [isUpToDate, fieldUpToDate, hsome, hne]

/-- C10 witness: the nil-desired `GroupName` leaves the outcome unchanged
even when the observed `GroupName` is replaced, and a concrete mismatching
desired `GroupName` yields false. -/
theorem group_isUpToDate_nil_no_opinion_witness :
    (isUpToDate (emptyParams "QA") observedQA).1
      = (isUpToDate (emptyParams "QA") { observedQA with GroupName := some "zzz" }).1 ∧
    (isUpToDate { emptyParams "QA" with GroupName := some "X" } observedQA).1 = false :=
  ⟨(group_isUpToDate_nil_no_opinion (emptyParams "QA") observedQA (some "zzz")).2.2.1 rfl,
    (group_isUpToDate_nil_no_opinion { emptyParams "QA" with GroupName := some "X" }
      observedQA none).2.2.2 "X" rfl (by decide)⟩

end Cloudian
